import Mathlib

/-!
Verification of the transformer-architecture notebooks of this repository.

The tensor snippets of the notebooks are shallowly embedded over the real
numbers: a 2-d tensor of shape `(n, m)` becomes a function
`Fin n → Fin m → ℝ` (the batch dimension, always of size 1 in the
notebooks, is dropped), `torch.matmul` becomes an explicit sum,
`F.softmax` becomes division of exponentials by their row sum, and
`nn.Dropout` is modelled in eval mode, where it is the identity.
`scores.masked_fill(mask == 0, float(-inf))` followed by `F.softmax` is
modelled by sending masked entries of the exponential to `0`, which is
the value of `exp` at negative infinity; the model is faithful whenever a
row has at least one unmasked entry (as every row of the causal mask
does).  Shape-level claims are settled against a separate shape
semantics of the same operators.
-/

namespace AIAcademy

/-- Softmax of one row, the mathematical content of `F.softmax(scores, dim=-1)`
from the notebook: each entry is its exponential divided by the row sum of
exponentials. -/
noncomputable def softmaxRow {n : ℕ} (s : Fin n → ℝ) : Fin n → ℝ :=
  fun j => Real.exp (s j) / ∑ t, Real.exp (s t)

/-- Masked softmax of one row: the mathematical content of
`scores.masked_fill(mask == 0, float(-inf))` followed by
`F.softmax(scores, dim=-1)` in `MaskedMultiHeadAttention.forward`.  An entry
whose mask is `false` was set to negative infinity, so its exponential is `0`. -/
noncomputable def maskedSoftmaxRow {n : ℕ} (mask : Fin n → Bool) (s : Fin n → ℝ) :
    Fin n → ℝ :=
  fun j => (if mask j then Real.exp (s j) else 0) /
    ∑ t, (if mask t then Real.exp (s t) else 0)

/-- Attention scores from the notebook:
`scores = torch.matmul(Q, K.transpose(-2,-1)) / dimension` with
`dimension = torch.sqrt(torch.Tensor([K.shape[-1]]))` (and, in
`MaskedMultiHeadAttention.forward`, the same expression with
`self.head_dim ** 0.5` as the divisor). -/
noncomputable def attentionScores {m n d : ℕ} (Q : Fin m → Fin d → ℝ)
    (K : Fin n → Fin d → ℝ) : Fin m → Fin n → ℝ :=
  fun i j => (∑ t, Q i t * K j t) / Real.sqrt d

/-- The notebook's `self_attention(Q, K, V)`:
`output = torch.matmul(F.softmax(scores, dim=-1), V)`. -/
noncomputable def self_attention {m n d dv : ℕ} (Q : Fin m → Fin d → ℝ)
    (K : Fin n → Fin d → ℝ) (V : Fin n → Fin dv → ℝ) : Fin m → Fin dv → ℝ :=
  fun i c => ∑ j, softmaxRow (attentionScores Q K i) j * V j c

/-- Written from the spec's words, for comparison with `self_attention`:
"the query/key dot product scaled by the square root of the key dimension,
followed by the softmax-weighted sum of the value vectors", as a single
closed-form expression. -/
noncomputable def closedFormAttention {m n d dv : ℕ} (Q : Fin m → Fin d → ℝ)
    (K : Fin n → Fin d → ℝ) (V : Fin n → Fin dv → ℝ) : Fin m → Fin dv → ℝ :=
  fun i c => ∑ j,
    (Real.exp ((∑ t, Q i t * K j t) / Real.sqrt d) /
      ∑ u, Real.exp ((∑ t, Q i t * K u t) / Real.sqrt d)) * V j c

/-- Written from the spec's words, for comparison with the masked attention
core of `MaskedMultiHeadAttention.forward`: scaled query/key dot products,
masked positions set to negative infinity (so their exponential is `0`)
before the softmax normalization, followed by the softmax-weighted sum of
the value vectors. -/
noncomputable def closedFormMaskedAttention {m n d dv : ℕ}
    (M : Fin m → Fin n → Bool) (Q : Fin m → Fin d → ℝ)
    (K : Fin n → Fin d → ℝ) (V : Fin n → Fin dv → ℝ) : Fin m → Fin dv → ℝ :=
  fun i c => ∑ j,
    ((if M i j then Real.exp ((∑ t, Q i t * K j t) / Real.sqrt d) else 0) /
      ∑ u, (if M i u then Real.exp ((∑ t, Q i t * K u t) / Real.sqrt d) else 0)) * V j c

/-- One application of `nn.Linear(dIn, dOut)` to a single position's feature
vector: `y = x @ W.T + b`, so `y j = (∑ t, x t * W j t) + b j`.  The linear
projections of `MaskedMultiHeadAttention` act position-wise through this map. -/
noncomputable def linearMap {dIn dOut : ℕ} (W : Fin dOut → Fin dIn → ℝ)
    (b : Fin dOut → ℝ) (x : Fin dIn → ℝ) : Fin dOut → ℝ :=
  fun j => (∑ t, x t * W j t) + b j

/-- `nn.Dropout` in eval mode is the identity; `MaskedMultiHeadAttention.forward`
applies it to the attention weights. -/
def dropoutEval {α : Type} (x : α) : α := x

/-- The flat feature index of head `h`, within-head coordinate `r`, for
`head_dim = Dh` heads: the notebook's
`x.view(batch_size, -1, self.nhead, self.head_dim)` maps flat feature index
`h * head_dim + r` of a position to coordinate `r` of head `h`. -/
def headIdx {H Dh : ℕ} (h : Fin H) (r : Fin Dh) : Fin (H * Dh) :=
  ⟨h.val * Dh + r.val, by
    have h1 : h.val + 1 ≤ H := h.isLt
    have h2 : r.val < Dh := r.isLt
    calc h.val * Dh + r.val < h.val * Dh + Dh := by omega
      _ = (h.val + 1) * Dh := by ring
      _ ≤ H * Dh := Nat.mul_le_mul h1 (le_refl Dh)⟩

def headDh_pos {H Dh : ℕ} (j : Fin (H * Dh)) : 0 < Dh := by
  have hpos : 0 < H * Dh := Nat.lt_of_le_of_lt (Nat.zero_le _) j.isLt
  rcases Nat.eq_zero_or_pos Dh with h0 | h0
  · rw [h0, Nat.mul_zero] at hpos
    exact absurd hpos (lt_irrefl 0)
  · exact h0

def headQuot_lt {H Dh : ℕ} (j : Fin (H * Dh)) : j.val / Dh < H :=
  (Nat.div_lt_iff_lt_mul (headDh_pos j)).mpr j.isLt

def headRem_lt {H Dh : ℕ} (j : Fin (H * Dh)) : j.val % Dh < Dh :=
  Nat.mod_lt _ (headDh_pos j)

/-- The head-splitting reshape of `MaskedMultiHeadAttention.forward`:
`x.view(batch_size, -1, self.nhead, self.head_dim).permute(0, 2, 1, 3)`,
taking a `(seq, d_model)` tensor to head-indexed `(seq, head_dim)` tensors. -/
def splitHeads {seq H Dh : ℕ} (x : Fin seq → Fin (H * Dh) → ℝ) :
    Fin H → Fin seq → Fin Dh → ℝ :=
  fun h t r => x t (headIdx h r)

/-- The head-concatenating reshape of `MaskedMultiHeadAttention.forward`:
`output.permute(0, 2, 1, 3).contiguous().view(batch_size, -1, self.d_model)`,
recovering flat feature index `j` from head `j / head_dim`, coordinate
`j % head_dim`. -/
def concatHeads {seq H Dh : ℕ} (o : Fin H → Fin seq → Fin Dh → ℝ) :
    Fin seq → Fin (H * Dh) → ℝ :=
  fun t j => o ⟨j.val / Dh, headQuot_lt j⟩ t ⟨j.val % Dh, headRem_lt j⟩

/-- The learned parameters of `MaskedMultiHeadAttention`: the weights and
biases of `q_linear`, `k_linear`, `v_linear` and `out_linear`, all
`nn.Linear(d_model, d_model)`. -/
structure MMHAParams (d_model : ℕ) where
  Wq : Fin d_model → Fin d_model → ℝ
  bq : Fin d_model → ℝ
  Wk : Fin d_model → Fin d_model → ℝ
  bk : Fin d_model → ℝ
  Wv : Fin d_model → Fin d_model → ℝ
  bv : Fin d_model → ℝ
  Wo : Fin d_model → Fin d_model → ℝ
  bo : Fin d_model → ℝ

/-- One head of `MaskedMultiHeadAttention.forward` (eval mode, batch size 1),
with `d_model = H * Dh`: the linear projections of query, key and value are
split into heads, scores are the scaled dot products, an optional mask sends
disallowed scores to negative infinity before the softmax, dropout is the
identity in eval mode, and the head's output is the weighted sum of its
value rows. -/
noncomputable def mmhaHead {sq sk H Dh : ℕ} (p : MMHAParams (H * Dh))
    (mask : Option (Fin sq → Fin sk → Bool))
    (query : Fin sq → Fin (H * Dh) → ℝ) (key value : Fin sk → Fin (H * Dh) → ℝ)
    (h : Fin H) : Fin sq → Fin Dh → ℝ :=
  let q := splitHeads (fun t => linearMap p.Wq p.bq (query t)) h
  let k := splitHeads (fun t => linearMap p.Wk p.bk (key t)) h
  let v := splitHeads (fun t => linearMap p.Wv p.bv (value t)) h
  fun i r =>
    let attn : Fin sk → ℝ := dropoutEval (match mask with
      | none => softmaxRow (attentionScores q k i)
      | some M => maskedSoftmaxRow (M i) (attentionScores q k i))
    ∑ j, attn j * v j r

/-- `MaskedMultiHeadAttention.forward` (eval mode, batch size 1): the
concatenated head outputs pass through `out_linear`. -/
noncomputable def MaskedMultiHeadAttention_forward {sq sk H Dh : ℕ}
    (p : MMHAParams (H * Dh)) (mask : Option (Fin sq → Fin sk → Bool))
    (query : Fin sq → Fin (H * Dh) → ℝ) (key value : Fin sk → Fin (H * Dh) → ℝ) :
    Fin sq → Fin (H * Dh) → ℝ :=
  fun t => linearMap p.Wo p.bo (concatHeads (mmhaHead p mask query key value) t)

/-- The causal mask of the notebook:
`torch.tril(torch.ones(seq_length, seq_length))` converted to booleans, so
position `i` may attend to position `j` exactly when `j ≤ i`. -/
def causalMask (n : ℕ) : Fin n → Fin n → Bool :=
  fun i j => decide (j.val ≤ i.val)

/-- Element `i` of the notebook's
`div_term = torch.exp(torch.arange(0, d_model, 2) * -(math.log(l) / d_model))`:
element `i` of `arange(0, d_model, 2)` is `2 * i`. -/
noncomputable def pe_div_term (l : ℝ) (d_model : ℕ) (i : ℕ) : ℝ :=
  Real.exp ((2 * i : ℝ) * -(Real.log l / (d_model : ℝ)))

/-- The `PositionalEncoding` table built by
`encoding[:, 0::2] = torch.sin(positions * div_term)` and
`encoding[:, 1::2] = torch.cos(positions * div_term)` for even `d_model`
(`__init__` fails for odd `d_model ≥ 3`, see the init model below): channel
`c` interleaves sine and cosine of `pos * div_term[c / 2]`. -/
noncomputable def PositionalEncoding_encoding (l : ℝ) (d_model max_len : ℕ)
    (pos : Fin max_len) (c : Fin d_model) : ℝ :=
  if c.val % 2 = 0 then Real.sin ((pos.val : ℝ) * pe_div_term l d_model (c.val / 2))
  else Real.cos ((pos.val : ℝ) * pe_div_term l d_model (c.val / 2))

/-- `PositionalEncoding.forward`: `x + self.encoding[:, :x.size(1)]`, stated
for the well-defined case `seq ≤ max_len`, where the slice has exactly the
`seq` first rows of the table. -/
noncomputable def PositionalEncoding_forward (l : ℝ) (d_model max_len seq : ℕ)
    (hseq : seq ≤ max_len) (x : Fin seq → Fin d_model → ℝ) :
    Fin seq → Fin d_model → ℝ :=
  fun p c => x p c +
    PositionalEncoding_encoding l d_model max_len
      ⟨p.val, lt_of_lt_of_le p.isLt hseq⟩ c

/-- Number of elements of `torch.arange(0, d_model, 2)`, the last dimension of
both right-hand sides in the `PositionalEncoding.__init__` assignments. -/
def pe_div_term_len (d_model : ℕ) : ℕ := (d_model + 1) / 2

/-- Number of columns of the slice `encoding[:, 0::2]`. -/
def pe_num_sin_cols (d_model : ℕ) : ℕ := (d_model + 1) / 2

/-- Number of columns of the slice `encoding[:, 1::2]`. -/
def pe_num_cos_cols (d_model : ℕ) : ℕ := d_model / 2

/-- PyTorch broadcast rule for one dimension of a slice assignment
`dst[...] = src` (and of a binary operation): the source size must equal the
destination size or be `1` (a size-1 dimension expands to any size,
including `0`). -/
def torch_broadcastable_to (src dst : ℕ) : Bool := src == dst || src == 1

/-- Shape success of `PositionalEncoding.__init__`: each of the two slice
assignments requires its right-hand side's last dimension (the length of
`div_term`) to broadcast to the number of columns of the slice. -/
def PositionalEncoding_init_ok (d_model : ℕ) : Bool :=
  torch_broadcastable_to (pe_div_term_len d_model) (pe_num_sin_cols d_model) &&
  torch_broadcastable_to (pe_div_term_len d_model) (pe_num_cos_cols d_model)

/-- Shape success of `PositionalEncoding.forward`: `self.encoding[:, :seq]`
has `min seq max_len` rows, and `x + slice` broadcasts along the sequence
dimension exactly when the two sizes are equal or one of them is `1`. -/
def pe_forward_ok (max_len seq : ℕ) : Bool :=
  min seq max_len == seq || min seq max_len == 1 || seq == 1

/-- Shape of a 3-d tensor `(batch_size, rows, cols)` as used by the
`self_attention` example of the notebook. -/
structure Shape3 where
  batch : ℕ
  rows : ℕ
  cols : ℕ
deriving DecidableEq

/-- Shape semantics of `K.transpose(-2, -1)`. -/
def transposeLast2 (s : Shape3) : Shape3 := ⟨s.batch, s.cols, s.rows⟩

/-- Shape semantics of batched `torch.matmul` with matching batch
dimensions: defined when the inner dimensions agree. -/
def matmulShape (a b : Shape3) : Option Shape3 :=
  if a.batch = b.batch ∧ a.cols = b.rows then some ⟨a.batch, a.rows, b.cols⟩
  else none

/-- Shape semantics of `self_attention(Q, K, V)`: division by the scalar
`dimension` and `F.softmax` preserve the shape, so the output shape is the
shape of `matmul(softmax(matmul(Q, K.transpose(-2,-1)) / dim), V)`. -/
def self_attention_shape (q k v : Shape3) : Option Shape3 :=
  match matmulShape q (transposeLast2 k) with
  | none => none
  | some scores => matmulShape scores v

/-- A `DecoderBlock` of the notebook, with the semantics of its submodules
abstracted: `masked_attn` is applied as
`masked_attn(output, output, output, mask)`, the residual uses tensor
addition, and `transformer_block(x, v)` is the cross-attention block.  The
claims about `Transformer.forward` hold for every choice of these
semantics. -/
structure DecoderBlockModel (T M : Type) where
  mask : M
  masked_attn : T → T → T → M → T
  dropout : T → T
  norm : T → T
  transformer_block : T → T → T

/-- `DecoderBlock.forward(output, x)` from the notebook:
`attn_output = masked_attn(output, output, output, mask)`;
`attn_output = output + dropout(attn_output)`; `attn_output = norm(attn_output)`;
`x = transformer_block(x, attn_output)`; return `x`. -/
def DecoderBlock_forward {T M : Type} [Add T] (b : DecoderBlockModel T M)
    (output x : T) : T :=
  let attn_output := b.masked_attn output output output b.mask
  let attn_output2 := output + b.dropout attn_output
  let attn_output3 := b.norm attn_output2
  b.transformer_block x attn_output3

/-- The `Transformer` module of the notebook, with submodule semantics
abstracted: an encoder stack, a positional encoding, a list of decoder
blocks (each holding the causal mask), and the final feed-forward layer. -/
structure TransformerModel (T M : Type) where
  encoder : T → T
  positional_encoding : T → T
  decoder : List (DecoderBlockModel T M)
  ffn : T → T

/-- `Transformer.forward(x)` from the notebook, line by line:
`x = encoder(x)`; `out = positional_encoding(x)`;
`for layer in decoder: out = layer(out, x)`; `x = ffn(x)`; `return x`.
The loop result `out` is never used in the returned value. -/
def Transformer_forward {T M : Type} [Add T] (mdl : TransformerModel T M)
    (x : T) : T :=
  let x1 := mdl.encoder x
  let out := mdl.decoder.foldl (fun o layer => DecoderBlock_forward layer o x1)
    (mdl.positional_encoding x1)
  mdl.ffn x1

/-- `torch.argmax` over one row of logits, modelled over `ℚ` (comparisons and
counting are all the evaluation loop needs): index of the first maximal
entry. `ci` is the index of the head of the remaining list, `bi`/`bv` the
best index and value so far. -/
def torchArgmaxGo : ℕ → ℕ → ℚ → List ℚ → ℕ
  | _, bi, _, [] => bi
  | ci, bi, bv, x :: xs =>
    if bv < x then torchArgmaxGo (ci + 1) ci x xs
    else torchArgmaxGo (ci + 1) bi bv xs

/-- `torch.argmax(logits, dim=1)` applied to one row. -/
def torchArgmax : List ℚ → ℕ
  | [] => 0
  | x :: xs => torchArgmaxGo 1 0 x xs

/-- One iteration of the evaluation loop of the BERT notebook over a batch of
(input, label) pairs: a forward pass computes the batch's logits, the row-wise
argmax is appended to `predictions` and the labels to `true_labels`.  The
state threads the model parameters, which the body never updates (there is no
backward pass and no optimizer step). -/
def evalStep {P I : Type} (model : P → I → List ℚ)
    (st : P × List ℕ × List ℤ) (batch : List (I × ℤ)) : P × List ℕ × List ℤ :=
  let logits := batch.map (fun ex => model st.1 ex.1)
  (st.1, st.2.1 ++ logits.map torchArgmax, st.2.2 ++ batch.map (fun ex => ex.2))

/-- The evaluation loop of the BERT notebook: starting from empty
`predictions` and `true_labels`, fold `evalStep` over the test batches. -/
def evaluationLoop {P I : Type} (model : P → I → List ℚ) (p : P)
    (batches : List (List (I × ℤ))) : P × List ℕ × List ℤ :=
  batches.foldl (evalStep model) (p, [], [])

/-- `sklearn.metrics.accuracy_score(true_labels, predictions)` as used by the
notebook: the fraction of positions where prediction and label agree. -/
def accuracy_score (y_true : List ℤ) (y_pred : List ℕ) : ℚ :=
  (((y_true.zip y_pred).countP (fun ab => ab.1 == (ab.2 : ℤ))) : ℚ) /
    (y_true.length : ℚ)

/-- The flattened example stream of a list of batches, in loop order. -/
def allExamples {A : Type} (batches : List (List A)) : List A :=
  batches.foldr (fun b acc => b ++ acc) []

/-- The notebook's `tokenize_function`, which calls the BERT tokenizer with
`padding to maximum length`, truncation enabled and maximum length `128`.
The tokenizer itself is an external library call, modelled by its documented
semantics on the raw id sequence `encode text`: truncate to `128` ids, then
pad with the pad id `0` up to `128` ids. -/
def bert_pad_truncate (ids : List ℕ) : List ℕ :=
  ids.take 128 ++ List.replicate (128 - ids.length) 0

/-- The attention mask returned with the encoding: `1` on real tokens, `0` on
padding, of the same length as the padded id sequence. -/
def bert_attention_mask (ids : List ℕ) : List ℕ :=
  List.replicate (min ids.length 128) 1 ++ List.replicate (128 - ids.length) 0

/-- `tokenize_function(texts)` for one text: the pair of the fixed-length id
sequence and its attention mask. -/
def tokenize_function (encode : String → List ℕ) (text : String) :
    List ℕ × List ℕ :=
  (bert_pad_truncate (encode text), bert_attention_mask (encode text))

/-- `MaskedMultiHeadAttention.__init__(d_model, nhead)`: the assertion
`d_model % nhead == 0` must pass, after which the module stores
`d_model`, `nhead` and `head_dim = d_model // nhead`. -/
def MaskedMultiHeadAttention_init (d_model nhead : ℕ) : Option (ℕ × ℕ × ℕ) :=
  if d_model % nhead = 0 then some (d_model, nhead, d_model / nhead) else none

/-- Concrete parameters (all weights `1`, all biases `0`) for exercising the
masked attention theorems at sequence length `2` with one head of dimension
one. -/
def c2Params : MMHAParams (1 * 1) :=
  ⟨fun _ _ => 1, fun _ => 0, fun _ _ => 1, fun _ => 0,
   fun _ _ => 1, fun _ => 0, fun _ _ => 1, fun _ => 0⟩

/-- A concrete query input of sequence length `2`. -/
def c2Query : Fin 2 → Fin (1 * 1) → ℝ := fun _ _ => 1

/-- A concrete key input; agrees with `c2KeyB` at position `0` only. -/
def c2KeyA : Fin 2 → Fin (1 * 1) → ℝ := fun j _ => if j.val = 0 then 1 else 2

/-- A concrete key input; agrees with `c2KeyA` at position `0` only. -/
def c2KeyB : Fin 2 → Fin (1 * 1) → ℝ := fun j _ => if j.val = 0 then 1 else 3

/-- A concrete value input; agrees with `c2ValB` at position `0` only. -/
def c2ValA : Fin 2 → Fin (1 * 1) → ℝ := fun j _ => if j.val = 0 then 5 else 7

/-- A concrete value input; agrees with `c2ValA` at position `0` only. -/
def c2ValB : Fin 2 → Fin (1 * 1) → ℝ := fun j _ => if j.val = 0 then 5 else 11

/-- A concrete transformer model over `ℕ`; shares encoder and final layer
with `c6ModelB` but has a different positional encoding and decoder list. -/
def c6ModelA : TransformerModel ℕ Unit :=
  ⟨fun v => v + 1, fun v => v, [], fun v => v * 2⟩

/-- A concrete transformer model over `ℕ`; shares encoder and final layer
with `c6ModelA` but has a different positional encoding and decoder list. -/
def c6ModelB : TransformerModel ℕ Unit :=
  ⟨fun v => v + 1, fun v => v + 5,
   [⟨(), fun a _ _ _ => a + 3, fun v => v, fun v => v + 9, fun a b => a + b⟩],
   fun v => v * 2⟩

/-! ## Theorems -/

/-- C1: for every query, key and value tensor, `self_attention` returns
exactly the spec's closed-form formula, and `MaskedMultiHeadAttention.forward`
with a mask is exactly `out_linear` applied to the concatenation over heads of
the spec's closed-form masked attention formula evaluated on the projected
query, key and value (dropout in eval mode). -/
theorem attention_matches_closed_form :
    (∀ (m n d dv : ℕ) (Q : Fin m → Fin d → ℝ) (K : Fin n → Fin d → ℝ)
        (V : Fin n → Fin dv → ℝ),
      self_attention Q K V = closedFormAttention Q K V) ∧
    (∀ (sq sk H Dh : ℕ) (p : MMHAParams (H * Dh)) (M : Fin sq → Fin sk → Bool)
        (query : Fin sq → Fin (H * Dh) → ℝ)
        (key value : Fin sk → Fin (H * Dh) → ℝ),
      MaskedMultiHeadAttention_forward p (some M) query key value = fun t =>
        linearMap p.Wo p.bo (concatHeads (fun h =>
          closedFormMaskedAttention M
            (splitHeads (fun u => linearMap p.Wq p.bq (query u)) h)
            (splitHeads (fun u => linearMap p.Wk p.bk (key u)) h)
            (splitHeads (fun u => linearMap p.Wv p.bv (value u)) h)) t)) :=
  ⟨fun _ _ _ _ _ _ _ => rfl, fun _ _ _ _ _ _ _ _ _ => rfl⟩

theorem maskedSoftmaxRow_congr {n : ℕ} (M : Fin n → Bool) (s s2 : Fin n → ℝ)
    (hs : ∀ j, M j = true → s j = s2 j) :
    maskedSoftmaxRow M s = maskedSoftmaxRow M s2 := by
  funext j
  unfold maskedSoftmaxRow
  have hnum : ∀ t, (if M t then Real.exp (s t) else 0) =
      (if M t then Real.exp (s2 t) else 0) := by
    intro t
    by_cases ht : M t = true
    · rw [if_pos ht, if_pos ht, hs t ht]
    · rw [if_neg ht, if_neg ht]
  rw [hnum j, Finset.sum_congr rfl (fun t _ => hnum t)]

theorem maskedWeightedSum_congr {n : ℕ} (M : Fin n → Bool) (s s2 v v2 : Fin n → ℝ)
    (hs : ∀ j, M j = true → s j = s2 j) (hv : ∀ j, M j = true → v j = v2 j) :
    ∑ j, maskedSoftmaxRow M s j * v j = ∑ j, maskedSoftmaxRow M s2 j * v2 j := by
  rw [maskedSoftmaxRow_congr M s s2 hs]
  refine Finset.sum_congr rfl (fun j _ => ?_)
  by_cases hj : M j = true
  · rw [hv j hj]
  · have hzero : maskedSoftmaxRow M s2 j = 0 := by
      unfold maskedSoftmaxRow
      rw [if_neg hj, zero_div]
    rw [hzero, zero_mul, zero_mul]

theorem mmhaHead_some {sq sk H Dh : ℕ} (p : MMHAParams (H * Dh))
    (M : Fin sq → Fin sk → Bool) (query : Fin sq → Fin (H * Dh) → ℝ)
    (key value : Fin sk → Fin (H * Dh) → ℝ) (h : Fin H) (i : Fin sq) (r : Fin Dh) :
    mmhaHead p (some M) query key value h i r =
      ∑ j, maskedSoftmaxRow (M i)
        (attentionScores (splitHeads (fun t => linearMap p.Wq p.bq (query t)) h)
          (splitHeads (fun t => linearMap p.Wk p.bk (key t)) h) i) j *
        splitHeads (fun t => linearMap p.Wv p.bv (value t)) h j r := rfl

/-- C2: under the causal mask, the output of
`MaskedMultiHeadAttention.forward` at position `i` is unchanged when the key
and value inputs are modified at positions `> i` only: future positions have
attention weight `0` and contribute neither to the numerators nor to the
softmax normalizer. -/
theorem causal_mask_future_invariance {n H Dh : ℕ} (p : MMHAParams (H * Dh))
    (q k v k2 v2 : Fin n → Fin (H * Dh) → ℝ) (i : Fin n)
    (hk : ∀ j : Fin n, j.val ≤ i.val → k j = k2 j)
    (hv : ∀ j : Fin n, j.val ≤ i.val → v j = v2 j) :
    MaskedMultiHeadAttention_forward p (some (causalMask n)) q k v i =
      MaskedMultiHeadAttention_forward p (some (causalMask n)) q k2 v2 i := by
  have hhead : ∀ (h : Fin H) (r : Fin Dh),
      mmhaHead p (some (causalMask n)) q k v h i r =
        mmhaHead p (some (causalMask n)) q k2 v2 h i r := by
    intro h r
    have hs : ∀ j : Fin n, causalMask n i j = true →
        attentionScores (splitHeads (fun t => linearMap p.Wq p.bq (q t)) h)
          (splitHeads (fun t => linearMap p.Wk p.bk (k t)) h) i j =
        attentionScores (splitHeads (fun t => linearMap p.Wq p.bq (q t)) h)
          (splitHeads (fun t => linearMap p.Wk p.bk (k2 t)) h) i j := by
      intro j hj
      have hj2 : j.val ≤ i.val := of_decide_eq_true hj
      unfold attentionScores splitHeads
      simp only [hk j hj2]
    have hv3 : ∀ j : Fin n, causalMask n i j = true →
        splitHeads (fun t => linearMap p.Wv p.bv (v t)) h j r =
        splitHeads (fun t => linearMap p.Wv p.bv (v2 t)) h j r := by
      intro j hj
      have hj2 : j.val ≤ i.val := of_decide_eq_true hj
      unfold splitHeads
      simp only [hv j hj2]
    rw [mmhaHead_some, mmhaHead_some]
    exact maskedWeightedSum_congr (causalMask n i)
      (attentionScores (splitHeads (fun t => linearMap p.Wq p.bq (q t)) h)
        (splitHeads (fun t => linearMap p.Wk p.bk (k t)) h) i)
      (attentionScores (splitHeads (fun t => linearMap p.Wq p.bq (q t)) h)
        (splitHeads (fun t => linearMap p.Wk p.bk (k2 t)) h) i)
      (fun j => splitHeads (fun t => linearMap p.Wv p.bv (v t)) h j r)
      (fun j => splitHeads (fun t => linearMap p.Wv p.bv (v2 t)) h j r)
      hs hv3
  funext c
  unfold MaskedMultiHeadAttention_forward linearMap concatHeads
  refine congrArg (fun z : ℝ => z + p.bo c) ?_
  exact Finset.sum_congr rfl (fun t _ => by rw [hhead])

/-- Witness for `causal_mask_future_invariance` at sequence length `2`,
position `0`, one head of dimension one: the two key/value pairs agree at
position `0` and differ at position `1`, and the outputs at position `0`
coincide. -/
theorem causal_mask_future_invariance_witness :
    (∀ j : Fin 2, j.val ≤ (0 : Fin 2).val → c2KeyA j = c2KeyB j) ∧
    (∀ j : Fin 2, j.val ≤ (0 : Fin 2).val → c2ValA j = c2ValB j) ∧
    MaskedMultiHeadAttention_forward c2Params (some (causalMask 2))
        c2Query c2KeyA c2ValA 0 =
      MaskedMultiHeadAttention_forward c2Params (some (causalMask 2))
        c2Query c2KeyB c2ValB 0 := by
  have hk : ∀ j : Fin 2, j.val ≤ (0 : Fin 2).val → c2KeyA j = c2KeyB j := by
    intro j hj
    funext c
    have hj0 : j.val = 0 := Nat.le_zero.mp hj
    unfold c2KeyA c2KeyB
    rw [if_pos hj0, if_pos hj0]
  have hv : ∀ j : Fin 2, j.val ≤ (0 : Fin 2).val → c2ValA j = c2ValB j := by
    intro j hj
    funext c
    have hj0 : j.val = 0 := Nat.le_zero.mp hj
    unfold c2ValA c2ValB
    rw [if_pos hj0, if_pos hj0]
  exact ⟨hk, hv,
    causal_mask_future_invariance c2Params c2Query c2KeyA c2ValA c2KeyB c2ValB 0 hk hv⟩

theorem softmaxRow_sum {n : ℕ} (s : Fin n → ℝ) (hn : 0 < n) :
    ∑ j, softmaxRow s j = 1 := by
  unfold softmaxRow
  rw [← Finset.sum_div]
  have hne : (Finset.univ : Finset (Fin n)).Nonempty := ⟨⟨0, hn⟩, Finset.mem_univ _⟩
  have hpos : 0 < ∑ t, Real.exp (s t) :=
    Finset.sum_pos (fun t _ => Real.exp_pos (s t)) hne
  exact div_self (ne_of_gt hpos)

theorem maskedSoftmaxRow_sum {n : ℕ} (M : Fin n → Bool) (s : Fin n → ℝ)
    (hM : ∃ j, M j = true) :
    ∑ j, maskedSoftmaxRow M s j = 1 := by
  unfold maskedSoftmaxRow
  rw [← Finset.sum_div]
  obtain ⟨j0, hj0⟩ := hM
  have hpos : 0 < ∑ t, (if M t then Real.exp (s t) else 0) := by
    refine Finset.sum_pos' (fun t _ => ?_) ⟨j0, Finset.mem_univ _, ?_⟩
    · by_cases ht : M t = true
      · rw [if_pos ht]
        exact (Real.exp_pos _).le
      · rw [if_neg ht]
    · rw [if_pos hj0]
      exact Real.exp_pos _
  exact div_self (ne_of_gt hpos)

/-- C3: softmax attention weights sum to `1` along the key axis for every
query position: for `self_attention` whenever the key axis is nonempty, and
for the masked softmax of `MaskedMultiHeadAttention.forward` (over any score
row) whenever some position of the row is unmasked, as every row of the
causal mask has. -/
theorem softmax_weights_sum_to_one :
    (∀ (m n d : ℕ), 0 < n → ∀ (Q : Fin m → Fin d → ℝ) (K : Fin n → Fin d → ℝ)
        (i : Fin m), ∑ j, softmaxRow (attentionScores Q K i) j = 1) ∧
    (∀ (sq sk : ℕ) (M : Fin sq → Fin sk → Bool) (i : Fin sq) (s : Fin sk → ℝ),
        (∃ j, M i j = true) → ∑ j, maskedSoftmaxRow (M i) s j = 1) :=
  ⟨fun _ _ _ hn _ _ _ => softmaxRow_sum _ hn,
   fun _ _ _ _ _ hM => maskedSoftmaxRow_sum _ _ hM⟩

/-- Witness for `softmax_weights_sum_to_one` at concrete sizes: unmasked
weights on a single key position, and causally masked weights at query
position `0` of a length-2 sequence. -/
theorem softmax_weights_sum_to_one_witness :
    ((0 : ℕ) < 1 ∧
      ∑ j : Fin 1, softmaxRow
        (attentionScores (fun (_ : Fin 1) (_ : Fin 1) => (0 : ℝ))
          (fun (_ : Fin 1) (_ : Fin 1) => (0 : ℝ)) 0) j = 1) ∧
    ((∃ j : Fin 2, causalMask 2 0 j = true) ∧
      ∑ j : Fin 2, maskedSoftmaxRow (causalMask 2 0) (fun _ => (0 : ℝ)) j = 1) :=
  ⟨⟨Nat.one_pos,
    softmax_weights_sum_to_one.1 1 1 1 Nat.one_pos (fun _ _ => 0) (fun _ _ => 0) 0⟩,
   ⟨⟨0, rfl⟩,
    softmax_weights_sum_to_one.2 2 2 (causalMask 2) 0 (fun _ => 0) ⟨0, rfl⟩⟩⟩

/-- C4 counterexample: `self_attention` accepts a query of sequence length 2
against keys and values of sequence length 3 (all shapes composable), and the
output shape `(1, 2, 4)` differs from the value shape `(1, 3, 4)`.  The claim
that the output shape always equals the value shape is therefore false. -/
theorem self_attention_shape_counterexample :
    self_attention_shape ⟨1, 2, 4⟩ ⟨1, 3, 4⟩ ⟨1, 3, 4⟩ = some ⟨1, 2, 4⟩ ∧
    ((⟨1, 2, 4⟩ : Shape3) ≠ (⟨1, 3, 4⟩ : Shape3)) := by
  exact ⟨rfl, by decide⟩

/-- C4 amended: the output shape of `self_attention` is
`(query batch, query rows, value cols)`; it equals the value shape whenever
the query and the key have the same number of rows (the same sequence
length), as in every call the notebook makes. -/
theorem self_attention_shape_amended (q k v out : Shape3)
    (hacc : self_attention_shape q k v = some out) :
    out = ⟨q.batch, q.rows, v.cols⟩ ∧ (q.rows = k.rows → out = v) := by
  obtain ⟨qb, qr, qc⟩ := q
  obtain ⟨kb, kr, kc⟩ := k
  obtain ⟨vb, vr, vc⟩ := v
  unfold self_attention_shape matmulShape transposeLast2 at hacc
  by_cases h1 : qb = kb ∧ qc = kc
  · rw [if_pos h1] at hacc
    simp only at hacc
    by_cases h2 : qb = vb ∧ kr = vr
    · rw [if_pos h2] at hacc
      simp only [Option.some.injEq] at hacc
      subst hacc
      refine ⟨rfl, fun hrows => ?_⟩
      have hr : qr = kr := hrows
      have hb : qb = vb := h2.1
      have hkv : kr = vr := h2.2
      have hr2 : qr = vr := by omega
      rw [hb, hr2]
    · rw [if_neg h2] at hacc
      exact absurd hacc (by simp)
  · rw [if_neg h1] at hacc
    exact absurd hacc (by simp)

/-- Witness for `self_attention_shape_amended`: on equal shapes
`(1, 3, 4)` the output shape equals the value shape. -/
theorem self_attention_shape_amended_witness :
    self_attention_shape ⟨1, 3, 4⟩ ⟨1, 3, 4⟩ ⟨1, 3, 4⟩ = some ⟨1, 3, 4⟩ ∧
    (⟨1, 3, 4⟩ : Shape3) = ⟨1, 3, 4⟩ :=
  ⟨rfl, (self_attention_shape_amended ⟨1, 3, 4⟩ ⟨1, 3, 4⟩ ⟨1, 3, 4⟩ ⟨1, 3, 4⟩ rfl).2 rfl⟩

theorem pe_div_term_eq (l : ℝ) (hl : 0 < l) (d i : ℕ) :
    pe_div_term l d i = (l ^ ((2 * i : ℝ) / (d : ℝ)))⁻¹ := by
  rw [pe_div_term, ← Real.rpow_neg hl.le, Real.rpow_def_of_pos hl]
  congr 1
  ring

/-- C5: for base `l > 0` the positional encoding table holds
`sin(pos / l^(2i/d_model))` at even channel `2i` and
`cos(pos / l^(2i/d_model))` at odd channel `2i+1`, and
`PositionalEncoding.forward` adds the first `seq` rows of the table to its
input. -/
theorem positional_encoding_table (l : ℝ) (hl : 0 < l) (d_model max_len : ℕ) :
    (∀ (pos : Fin max_len) (i : ℕ) (h2i : 2 * i < d_model),
      PositionalEncoding_encoding l d_model max_len pos ⟨2 * i, h2i⟩ =
        Real.sin ((pos.val : ℝ) / l ^ ((2 * i : ℝ) / (d_model : ℝ)))) ∧
    (∀ (pos : Fin max_len) (i : ℕ) (h2i : 2 * i + 1 < d_model),
      PositionalEncoding_encoding l d_model max_len pos ⟨2 * i + 1, h2i⟩ =
        Real.cos ((pos.val : ℝ) / l ^ ((2 * i : ℝ) / (d_model : ℝ)))) ∧
    (∀ (seq : ℕ) (hseq : seq ≤ max_len) (x : Fin seq → Fin d_model → ℝ)
        (p : Fin seq) (c : Fin d_model),
      PositionalEncoding_forward l d_model max_len seq hseq x p c =
        x p c + PositionalEncoding_encoding l d_model max_len
          ⟨p.val, lt_of_lt_of_le p.isLt hseq⟩ c) := by
  refine ⟨?_, ?_, ?_⟩
  · intro pos i h2i
    unfold PositionalEncoding_encoding
    have hmod : (2 * i) % 2 = 0 := Nat.mul_mod_right 2 i
    have hdiv : (2 * i) / 2 = i := by omega
    simp only [hmod, hdiv, if_pos]
    rw [pe_div_term_eq l hl d_model i, ← div_eq_mul_inv]
  · intro pos i h2i
    unfold PositionalEncoding_encoding
    have hmod : (2 * i + 1) % 2 = 1 := by omega
    have hdiv : (2 * i + 1) / 2 = i := by omega
    simp only [hmod, hdiv]
    rw [if_neg (by omega), pe_div_term_eq l hl d_model i, ← div_eq_mul_inv]
  · intro seq hseq x p c
    rfl

/-- Witness for `positional_encoding_table` at `l = 10000`, `d_model = 4`,
`max_len = 5`, position `2`, channel `2`. -/
theorem positional_encoding_table_witness :
    (0 : ℝ) < 10000 ∧
    PositionalEncoding_encoding 10000 4 5 ⟨2, by omega⟩ ⟨2 * 1, by omega⟩ =
      Real.sin ((((⟨2, by omega⟩ : Fin 5).val : ℕ) : ℝ) /
        (10000 : ℝ) ^ ((2 * ((1 : ℕ) : ℝ)) / ((4 : ℕ) : ℝ))) :=
  ⟨by norm_num,
   (positional_encoding_table 10000 (by norm_num) 4 5).1 ⟨2, by omega⟩ 1 (by omega)⟩

/-- C6: `Transformer.forward` returns `ffn(encoder(x))`: its value is a
function of the encoder stack and the final feed-forward layer only, for
every semantics of the positional re-encoding of the encoder output and of
the decoder blocks (including whatever mask they hold); the decoder loop's
result is computed but never used. -/
theorem transformer_forward_ignores_decoder {T M : Type} [Add T] :
    (∀ (mdl : TransformerModel T M) (x : T),
      Transformer_forward mdl x = mdl.ffn (mdl.encoder x)) ∧
    (∀ (m1 m2 : TransformerModel T M) (x : T),
      m1.encoder = m2.encoder → m1.ffn = m2.ffn →
      Transformer_forward m1 x = Transformer_forward m2 x) := by
  refine ⟨fun mdl x => rfl, fun m1 m2 x he hf => ?_⟩
  show m1.ffn (m1.encoder x) = m2.ffn (m2.encoder x)
  rw [he, hf]

/-- Witness for `transformer_forward_ignores_decoder`: the two concrete
models share encoder and final layer, differ in positional encoding and
decoder list, and agree on input `3`. -/
theorem transformer_forward_ignores_decoder_witness :
    c6ModelA.encoder = c6ModelB.encoder ∧ c6ModelA.ffn = c6ModelB.ffn ∧
    Transformer_forward c6ModelA 3 = Transformer_forward c6ModelB 3 :=
  ⟨rfl, rfl, transformer_forward_ignores_decoder.2 c6ModelA c6ModelB 3 rfl rfl⟩

theorem evaluationLoop_foldl {P I : Type} (model : P → I → List ℚ)
    (batches : List (List (I × ℤ))) (q : P) (l1 : List ℕ) (l2 : List ℤ) :
    batches.foldl (evalStep model) (q, l1, l2) =
      (q, l1 ++ (batches.flatten).map (fun ex => torchArgmax (model q ex.1)),
          l2 ++ (batches.flatten).map (fun ex => ex.2)) := by
  induction batches generalizing l1 l2 with
  | nil => simp
  | cons b bs ih =>
    rw [List.foldl_cons]
    rw [show evalStep model (q, l1, l2) b =
        (q, l1 ++ (b.map (fun ex => model q ex.1)).map torchArgmax,
            l2 ++ b.map (fun ex => ex.2)) from rfl]
    rw [ih]
    simp [List.map_map, Function.comp, List.map_append, List.append_assoc]

/-- C7: the evaluation loop performs forward passes only: the model
parameters it threads come back unchanged (the loop body has no backward
pass and no optimizer step), the predictions are the row-wise argmax of the
logits of all examples in batch order, the collected labels are the true
labels in the same order, and the reported accuracy is the fraction of
examples whose prediction equals the true label. -/
theorem evaluation_loop_spec {P I : Type} (model : P → I → List ℚ) (p : P)
    (batches : List (List (I × ℤ))) :
    (evaluationLoop model p batches).1 = p ∧
    (evaluationLoop model p batches).2.1 =
      (batches.flatten).map (fun ex => torchArgmax (model p ex.1)) ∧
    (evaluationLoop model p batches).2.2 =
      (batches.flatten).map (fun ex => ex.2) ∧
    accuracy_score (evaluationLoop model p batches).2.2
        (evaluationLoop model p batches).2.1 =
      (((batches.flatten).countP
          (fun ex => ex.2 == ((torchArgmax (model p ex.1) : ℕ) : ℤ))) : ℚ) /
        ((batches.flatten).length : ℚ) := by
  unfold evaluationLoop
  rw [evaluationLoop_foldl model batches p [] []]
  refine ⟨rfl, by simp, by simp, ?_⟩
  simp only [List.nil_append]
  rw [accuracy_score, List.zip_map', List.countP_map, List.length_map]
  simp only [Function.comp_def]

/-- C8: for every text (every raw id sequence produced by the external
tokenizer vocabulary), `tokenize_function` returns exactly 128 ids and an
attention mask of the same length 128. -/
theorem tokenize_function_fixed_length (encode : String → List ℕ) (text : String) :
    (tokenize_function encode text).1.length = 128 ∧
    (tokenize_function encode text).2.length = 128 := by
  unfold tokenize_function bert_pad_truncate bert_attention_mask
  constructor
  · simp only [List.length_append, List.length_take, List.length_replicate]
    omega
  · simp only [List.length_append, List.length_replicate]
    omega

theorem concat_split_heads {seq H Dh : ℕ} (x : Fin seq → Fin (H * Dh) → ℝ) :
    concatHeads (splitHeads x) = x := by
  funext t j
  unfold concatHeads splitHeads
  have hval : (headIdx (⟨j.val / Dh, headQuot_lt j⟩ : Fin H)
      (⟨j.val % Dh, headRem_lt j⟩ : Fin Dh)).val = j.val := by
    show j.val / Dh * Dh + j.val % Dh = j.val
    rw [Nat.mul_comm (j.val / Dh) Dh]
    exact Nat.div_add_mod j.val Dh
  exact congrArg (x t) (Fin.ext hval)

theorem split_concat_heads {seq H Dh : ℕ} (o : Fin H → Fin seq → Fin Dh → ℝ) :
    splitHeads (concatHeads o) = o := by
  funext h t r
  unfold splitHeads concatHeads
  have hDh : 0 < Dh := Nat.lt_of_le_of_lt (Nat.zero_le _) r.isLt
  have hdiv : (headIdx h r).val / Dh = h.val := by
    show (h.val * Dh + r.val) / Dh = h.val
    rw [Nat.mul_comm h.val Dh, Nat.mul_add_div hDh, Nat.div_eq_of_lt r.isLt,
      Nat.add_zero]
  have hmod : (headIdx h r).val % Dh = r.val := by
    show (h.val * Dh + r.val) % Dh = r.val
    rw [Nat.mul_comm h.val Dh, Nat.mul_add_mod, Nat.mod_eq_of_lt r.isLt]
  rw [show (⟨(headIdx h r).val / Dh, headQuot_lt _⟩ : Fin H) = h from Fin.ext hdiv,
      show (⟨(headIdx h r).val % Dh, headRem_lt _⟩ : Fin Dh) = r from Fin.ext hmod]

/-- C9: for positive `nhead`, constructing `MaskedMultiHeadAttention`
succeeds iff `d_model` is divisible by `nhead` (the assertion
`d_model % nhead == 0` fails otherwise); under that precondition
`head_dim * nhead = d_model`, and the head-splitting and head-concatenating
reshapes of `forward` are mutually inverse. -/
theorem mmha_init_divisibility (d_model nhead : ℕ) (hn : 0 < nhead) :
    ((MaskedMultiHeadAttention_init d_model nhead).isSome ↔ d_model % nhead = 0) ∧
    (d_model % nhead = 0 → (d_model / nhead) * nhead = d_model) ∧
    (∀ (seq H Dh : ℕ) (x : Fin seq → Fin (H * Dh) → ℝ),
      concatHeads (splitHeads x) = x) ∧
    (∀ (seq H Dh : ℕ) (o : Fin H → Fin seq → Fin Dh → ℝ),
      splitHeads (concatHeads o) = o) := by
  refine ⟨?_, ?_, fun _ _ _ x => concat_split_heads x,
    fun _ _ _ o => split_concat_heads o⟩
  · unfold MaskedMultiHeadAttention_init
    by_cases h : d_model % nhead = 0
    · rw [if_pos h]
      simp [h]
    · rw [if_neg h]
      simp [h]
  · intro h
    exact Nat.div_mul_cancel (Nat.dvd_of_mod_eq_zero h)

/-- Witness for `mmha_init_divisibility` at the notebook's `d_model = 64`,
`nhead = 8`. -/
theorem mmha_init_divisibility_witness :
    (0 : ℕ) < 8 ∧
    (((MaskedMultiHeadAttention_init 64 8).isSome ↔ 64 % 8 = 0) ∧
     (64 % 8 = 0 → (64 / 8) * 8 = 64) ∧
     (∀ (seq H Dh : ℕ) (x : Fin seq → Fin (H * Dh) → ℝ),
       concatHeads (splitHeads x) = x) ∧
     (∀ (seq H Dh : ℕ) (o : Fin H → Fin seq → Fin Dh → ℝ),
       splitHeads (concatHeads o) = o)) :=
  ⟨by norm_num, mmha_init_divisibility 64 8 (by norm_num)⟩

/-- C10 counterexample: `PositionalEncoding(d_model=1)` succeeds even though
`1` is odd (the cosine source has a single column, which broadcasts into the
empty odd-column slice, writing nothing), and `forward` is well-defined for
`max_len = 1` and sequence length `2` even though `2 > 1` (the sliced table
has a single row, which broadcasts along the sequence dimension). -/
theorem positional_encoding_claim_counterexample :
    (PositionalEncoding_init_ok 1 = true ∧ 1 % 2 ≠ 0) ∧
    (pe_forward_ok 1 2 = true ∧ ¬(2 ≤ 1)) := by decide

/-- C10 amended: construction succeeds iff `d_model` is even or
`d_model = 1`; for odd `d_model` the cosine assignment offers
`ceil(d_model/2) = d_model/2 + 1` source columns to `floor(d_model/2) =
d_model/2` slots (an error except in the broadcastable case `d_model = 1`);
and `forward` is well-defined iff `seq ≤ max_len` or the sliced table has a
single row or the input has a single row (broadcasting). -/
theorem positional_encoding_wellformedness (d_model max_len seq : ℕ) :
    (PositionalEncoding_init_ok d_model = true ↔ (d_model % 2 = 0 ∨ d_model = 1)) ∧
    (d_model % 2 = 1 →
      pe_div_term_len d_model = d_model / 2 + 1 ∧
      pe_num_cos_cols d_model = d_model / 2) ∧
    (pe_forward_ok max_len seq = true ↔
      (seq ≤ max_len ∨ min seq max_len = 1 ∨ seq = 1)) := by
  refine ⟨?_, fun h => ⟨?_, ?_⟩, ?_⟩
  · simp only [PositionalEncoding_init_ok, torch_broadcastable_to,
      pe_div_term_len, pe_num_sin_cols, pe_num_cos_cols,
      Bool.and_eq_true, Bool.or_eq_true, beq_iff_eq, true_or, true_and]
    omega
  · simp only [pe_div_term_len]
    omega
  · simp only [pe_num_cos_cols]
  · simp only [pe_forward_ok, Bool.or_eq_true, beq_iff_eq]
    omega

/-- Witness for `positional_encoding_wellformedness` at the odd width
`d_model = 3`. -/
theorem positional_encoding_wellformedness_witness :
    3 % 2 = 1 ∧ (pe_div_term_len 3 = 3 / 2 + 1 ∧ pe_num_cos_cols 3 = 3 / 2) :=
  ⟨by decide, (positional_encoding_wellformedness 3 0 0).2.1 (by decide)⟩

end AIAcademy
